import Mathlib

/-!
Verification of `creme/compose/pipeline.py` (the `Pipeline` class and its
`Network` drawing helper) against its natural-language specification.

The embedding is shallow: Python objects become Lean values, mutation of a
stage's learned state becomes explicit state passing (each stage carries its
current state `st`, and a `fit` call returns the stage with an updated `st`),
and the dynamic `isinstance` dispatch becomes dispatch on capability flags
and on the shape of a step (`single` vs `union`).

The repository sources under `src/` contain only `pipeline.py`.  The stage
capability contracts (`base.Transformer`, `base.SupervisedTransformer`,
`base.Predictor`, `base.Classifier`, `base.Wrapper`), the
`union.TransformerUnion` internals and `func.FuncTransformer` are external
collaborators whose code is not available; where their behaviour matters it
is modelled from the spec, and each such definition says so in its doc
comment.
-/

namespace CremePipeline

/-- A record of features: either a plain string or an ordered mapping from
feature names to values (`debug_one`'s `print_dict` explicitly handles both
shapes: "Some transformers accept strings as input instead of dicts").
`V` is the type of feature values; Python value formatting (`str`,
`'{:,.5f}'.format`) is abstracted by explicit formatting functions where it
is needed. -/
inductive Rec (V : Type) where
  | str (s : String)
  | dict (kvs : List (String × V))
  deriving DecidableEq, Repr

/-- The key-value items of a record (`x.items()`; a string record has none). -/
def Rec.items {V : Type} : Rec V → List (String × V)
  | .str _ => []
  | .dict kvs => kvs

/-- Modelled from the spec: a `TransformerUnion` (its source file
`union.py` is not under `src/`) merges the individual transform outputs of
its branches by concatenating their key sets into one record. -/
def mergeRec {V : Type} (a b : Rec V) : Rec V := .dict (a.items ++ b.items)

/-- A mini-batch: modelled from the spec as a homogeneous container of
records (`pd.DataFrame` viewed row-wise). -/
abbrev Batch (V : Type) := List (Rec V)

/-- Modelled from the spec: the stage capability contracts
(`base.Transformer`, `base.SupervisedTransformer`, `base.Predictor`,
`base.Classifier` and the optional `forecast` / `debug_one` capabilities),
whose source is not under `src/`.

A stage carries capability flags — standing for the `isinstance` checks and
for the `_is_supervised` attribute the pipeline reads — its stable textual
label `strRepr` (`str(stage)`), its current learned state `st`, and its
methods as functions of an explicit state.  `Y` is the label type, `P`
stands for the extra keyword parameters (`**params`); an unsupervised
`fit_one(x)` call is a call with the label argument omitted, i.e. `none`,
and with the empty keyword-argument set. -/
structure Est (V Y P S : Type) where
  isTransformer : Bool
  isSupT : Bool
  supFlag : Bool
  isClassifier : Bool
  strRepr : String
  st : S
  transformOneF : S → Rec V → Rec V
  fitOneF : S → Rec V → Option Y → P → S
  predictOneF : S → Rec V → V
  predictProbaOneF : S → Rec V → Rec V
  scoreOneF : S → Rec V → V
  forecastF : Option (S → Nat → Option (List (Rec V)) → V)
  debugOneF : Option (S → Rec V → String)
  transformManyF : S → Batch V → Batch V
  fitManyF : S → Batch V → Option (List Y) → P → S

variable {V Y P S : Type}

/-- `stage.transform_one(x)`: reads the current state, returns the
transformed record. -/
def Est.transform_one (e : Est V Y P S) (x : Rec V) : Rec V :=
  e.transformOneF e.st x

/-- `stage.fit_one(x, y, **p)`: the stage with its learned state updated
(Python mutates `self` and returns it). -/
def Est.fit_one (e : Est V Y P S) (x : Rec V) (y : Option Y) (p : P) :
    Est V Y P S :=
  { e with st := e.fitOneF e.st x y p }

/-- `stage.predict_one(x)`. -/
def Est.predict_one (e : Est V Y P S) (x : Rec V) : V :=
  e.predictOneF e.st x

/-- `stage.predict_proba_one(x)`: a mapping from labels (rendered as keys)
to probabilities, printable by `print_dict`. -/
def Est.predict_proba_one (e : Est V Y P S) (x : Rec V) : Rec V :=
  e.predictProbaOneF e.st x

/-- `stage.score_one(x)`. -/
def Est.score_one (e : Est V Y P S) (x : Rec V) : V :=
  e.scoreOneF e.st x

/-- `stage.transform_many(X)`. -/
def Est.transform_many (e : Est V Y P S) (X : Batch V) : Batch V :=
  e.transformManyF e.st X

/-- `stage.fit_many(X, y, **p)`: the stage with its learned state updated. -/
def Est.fit_many (e : Est V Y P S) (X : Batch V) (y : Option (List Y)) (p : P) :
    Est V Y P S :=
  { e with st := e.fitManyF e.st X y p }

/-- A pipeline step is either a single estimator or a
`union.TransformerUnion` of named branch estimators
(`t.transformers` is an ordered mapping from names to branches). -/
inductive Step (V Y P S : Type) where
  | single (e : Est V Y P S)
  | union (branches : List (String × Est V Y P S))

/-- `isinstance(t, base.SupervisedTransformer)` for a step.  Modelled from
the spec for the union case: a `TransformerUnion` is a plain (unsupervised)
transformer, never itself a `SupervisedTransformer` — the spec's traversal
rules treat "`t` is a Union" and "`t` itself satisfies
SupervisedTransformer" as mutually exclusive cases. -/
def Step.isSupT : Step V Y P S → Bool
  | .single e => e.isSupT
  | .union _ => false

/-- Modelled from the spec: `TransformerUnion.transform_one` merges the
individual branch transform outputs (key sets concatenated) into one
record. -/
def unionTransformOne (bs : List (String × Est V Y P S)) (x : Rec V) : Rec V :=
  (bs.map fun nb => nb.2.transform_one x).foldl mergeRec (Rec.dict [])

/-- Modelled from the spec: `TransformerUnion.transform_many` is the batch
shape of the same merge, concatenating the branch outputs column-wise,
i.e. row-wise merging of the branch output batches. -/
def unionTransformMany (bs : List (String × Est V Y P S)) (X : Batch V) :
    Batch V :=
  (bs.map fun nb => nb.2.transform_many X).foldl
    (fun acc B => List.zipWith mergeRec acc B) (X.map fun _ => Rec.dict [])

/-- `t.transform_one(x)` for a step. -/
def Step.transform_one : Step V Y P S → Rec V → Rec V
  | .single e, x => e.transform_one x
  | .union bs, x => unionTransformOne bs x

/-- `t.transform_many(X)` for a step. -/
def Step.transform_many : Step V Y P S → Batch V → Batch V
  | .single e, X => e.transform_many X
  | .union bs, X => unionTransformMany bs X

/-- The estimators reachable through a step: the stage itself, or each
branch of a union. -/
def Step.ests : Step V Y P S → List (Est V Y P S)
  | .single e => [e]
  | .union bs => bs.map (·.2)

/-- A pipeline: the registry's ordered steps.  Every execution method of the
source splits the steps into the first `n - 1`
(`itertools.islice(steps, len(self.steps) - 1)`) and the final one
(`next(steps)`), so a (nonempty) pipeline is embedded as its non-final named
steps plus its final estimator. -/
structure Pipeline (V Y P S : Type) where
  steps : List (String × Step V Y P S)
  finalName : String
  final : Est V Y P S

/-- All estimators of a pipeline. -/
def Pipeline.ests (p : Pipeline V Y P S) : List (Est V Y P S) :=
  (p.steps.map fun nt => nt.2.ests).flatten ++ [p.final]

/-! ### Record path -/

/-- The loop over the first `n - 1` steps of `Pipeline.fit_one`:

    for t in itertools.islice(steps, len(self.steps) - 1):
        x_pre = x
        x = t.transform_one(x=x)
        if isinstance(t, union.TransformerUnion):
            for sub_t in t.transformers.values():
                if isinstance(sub_t, base.SupervisedTransformer):
                    sub_t.fit_one(x=x_pre, y=y)
        elif isinstance(t, base.SupervisedTransformer):
            t.fit_one(x=x_pre, y=y)

`p0` is the empty keyword-argument set of the inner `fit_one` calls.
Returns the forwarded record and the updated steps. -/
def fitOneSteps (p0 : P) :
    List (String × Step V Y P S) → Rec V → Option Y →
    Rec V × List (String × Step V Y P S)
  | [], x, _ => (x, [])
  | (n, t) :: ts, x, y =>
    let x_pre := x
    let x' := t.transform_one x
    let t' : Step V Y P S :=
      match t with
      | .union bs =>
        .union (bs.map fun nb =>
          (nb.1, if nb.2.isSupT then nb.2.fit_one x_pre y p0 else nb.2))
      | .single e => .single (if e.isSupT then e.fit_one x_pre y p0 else e)
    let r := fitOneSteps p0 ts x' y
    (r.1, (n, t') :: r.2)

/-- `Pipeline.fit_one(x, y, **params)`: run the non-final loop, then

    final = next(steps)
    if final._is_supervised:
        final.fit_one(x=x, y=y, **params)
    else:
        final.fit_one(x=x, **params)

and return the (mutated) pipeline. -/
def Pipeline.fit_one (p0 : P) (p : Pipeline V Y P S) (x : Rec V) (y : Option Y)
    (params : P) : Pipeline V Y P S :=
  let r := fitOneSteps p0 p.steps x y
  let final' :=
    if p.final.supFlag then p.final.fit_one r.1 y params
    else p.final.fit_one r.1 none params
  ⟨r.2, p.finalName, final'⟩

/-- `Pipeline._transform_one`'s loop over the first `n - 1` steps:

    for t in itertools.islice(steps, len(self.steps) - 1):
        if isinstance(t, union.TransformerUnion):
            for sub_t in t.transformers.values():
                if not isinstance(t, base.SupervisedTransformer):
                    sub_t.fit_one(x=x)
        elif not isinstance(t, base.SupervisedTransformer):
            t.fit_one(x=x)
        x = t.transform_one(x=x)

Note the inner guard of the union case tests `t` (the union itself), not
`sub_t`; the translation preserves this.  The unsupervised fits happen
before the transform, so the transform sees the updated branch states.
Returns the forwarded record and the updated steps. -/
def transformOneSteps (p0 : P) :
    List (String × Step V Y P S) → Rec V →
    Rec V × List (String × Step V Y P S)
  | [], x => (x, [])
  | (n, t) :: ts, x =>
    let t' : Step V Y P S :=
      match t with
      | .union bs =>
        .union (bs.map fun nb =>
          (nb.1,
            if (Step.union bs : Step V Y P S).isSupT then nb.2
            else nb.2.fit_one x none p0))
      | .single e => .single (if e.isSupT then e else e.fit_one x none p0)
    let x' := t'.transform_one x
    let r := transformOneSteps p0 ts x'
    (r.1, (n, t') :: r.2)

/-- `Pipeline.transform_one(x)`: run `_transform_one`; if the final step is a
transformer, apply it (without fitting it), else return the record
unchanged.  Returns the value and the (mutated) pipeline. -/
def Pipeline.transform_one (p0 : P) (p : Pipeline V Y P S) (x : Rec V) :
    Rec V × Pipeline V Y P S :=
  let r := transformOneSteps p0 p.steps x
  (if p.final.isTransformer then p.final.transform_one r.1 else r.1,
   ⟨r.2, p.finalName, p.final⟩)

/-- `Pipeline.predict_one(x)`. -/
def Pipeline.predict_one (p0 : P) (p : Pipeline V Y P S) (x : Rec V) :
    V × Pipeline V Y P S :=
  let r := transformOneSteps p0 p.steps x
  (p.final.predict_one r.1, ⟨r.2, p.finalName, p.final⟩)

/-- `Pipeline.predict_proba_one(x)`. -/
def Pipeline.predict_proba_one (p0 : P) (p : Pipeline V Y P S) (x : Rec V) :
    Rec V × Pipeline V Y P S :=
  let r := transformOneSteps p0 p.steps x
  (p.final.predict_proba_one r.1, ⟨r.2, p.finalName, p.final⟩)

/-- `Pipeline.score_one(x)`. -/
def Pipeline.score_one (p0 : P) (p : Pipeline V Y P S) (x : Rec V) :
    V × Pipeline V Y P S :=
  let r := transformOneSteps p0 p.steps x
  (p.final.score_one r.1, ⟨r.2, p.finalName, p.final⟩)

/-- The list comprehension of `Pipeline.forecast`:
`xs = [self._transform_one(x)[0] for x in xs]` — each record is driven
through the non-final steps in turn, the (mutated) steps carrying over from
one record to the next. -/
def driveRecords (p0 : P) (ts : List (String × Step V Y P S))
    (xs : List (Rec V)) : List (Rec V) × List (String × Step V Y P S) :=
  xs.foldl
    (fun acc x =>
      let one := transformOneSteps p0 acc.2 x
      (acc.1 ++ [one.1], one.2))
    (([] : List (Rec V)), ts)

/-- `Pipeline.forecast(horizon, xs)`:

    if xs is not None:
        xs = [self._transform_one(x)[0] for x in xs]
    final_step = list(self.steps.values())[-1]
    return final_step.forecast(horizon=horizon, xs=xs)

A final step without the `forecast` capability raises `AttributeError`,
modelled as a `none` result. -/
def Pipeline.forecast (p0 : P) (p : Pipeline V Y P S) (horizon : Nat)
    (xs : Option (List (Rec V))) : Option V × Pipeline V Y P S :=
  match xs with
  | none =>
    (p.final.forecastF.map fun f => f p.final.st horizon none, p)
  | some l =>
    let r := driveRecords p0 p.steps l
    (p.final.forecastF.map fun f => f p.final.st horizon (some r.1),
     ⟨r.2, p.finalName, p.final⟩)

/-! ### Batch path -/

/-- The loop over the first `n - 1` steps of `Pipeline.fit_many`:

    for t in itertools.islice(steps, len(self.steps) - 1):
        X_pre = X
        X = t.transform_many(X=X)
        if isinstance(t, union.TransformerUnion):
            for sub_t in t.transformers.values():
                if isinstance(sub_t, base.SupervisedTransformer):
                    sub_t.fit_many(X=X)
        elif isinstance(t, base.SupervisedTransformer):
            t.fit_many(X=X)

Note: the source binds `X_pre` but never uses it, fits the supervised
transformers with the post-transform `X`, and passes them no label; the
translation preserves all three facts. -/
def fitManySteps (p0 : P) :
    List (String × Step V Y P S) → Batch V →
    Batch V × List (String × Step V Y P S)
  | [], X => (X, [])
  | (n, t) :: ts, X =>
    let _X_pre := X
    let X' := t.transform_many X
    let t' : Step V Y P S :=
      match t with
      | .union bs =>
        .union (bs.map fun nb =>
          (nb.1, if nb.2.isSupT then nb.2.fit_many X' none p0 else nb.2))
      | .single e => .single (if e.isSupT then e.fit_many X' none p0 else e)
    let r := fitManySteps p0 ts X'
    (r.1, (n, t') :: r.2)

/-- `Pipeline.fit_many(X, y, **params)`: run the non-final loop, then

    final = next(steps)
    if final._is_supervised:
        final.fit_many(X=X, y=y, **params)
    else:
        final.fit_many(X=X, y=y, **params)

(the two branches of the source are identical; the translation preserves
this). -/
def Pipeline.fit_many (p0 : P) (p : Pipeline V Y P S) (X : Batch V)
    (y : List Y) (params : P) : Pipeline V Y P S :=
  let r := fitManySteps p0 p.steps X
  let final' :=
    if p.final.supFlag then p.final.fit_many r.1 (some y) params
    else p.final.fit_many r.1 (some y) params
  ⟨r.2, p.finalName, final'⟩

/-- `Pipeline._transform_many`'s loop, structurally identical to
`_transform_one` (including the inner guard of the union case testing `t`
rather than `sub_t`). -/
def transformManySteps (p0 : P) :
    List (String × Step V Y P S) → Batch V →
    Batch V × List (String × Step V Y P S)
  | [], X => (X, [])
  | (n, t) :: ts, X =>
    let t' : Step V Y P S :=
      match t with
      | .union bs =>
        .union (bs.map fun nb =>
          (nb.1,
            if (Step.union bs : Step V Y P S).isSupT then nb.2
            else nb.2.fit_many X none p0))
      | .single e => .single (if e.isSupT then e else e.fit_many X none p0)
    let X' := t'.transform_many X
    let r := transformManySteps p0 ts X'
    (r.1, (n, t') :: r.2)

/-- `Pipeline.transform_many(X)`. -/
def Pipeline.transform_many (p0 : P) (p : Pipeline V Y P S) (X : Batch V) :
    Batch V × Pipeline V Y P S :=
  let r := transformManySteps p0 p.steps X
  (if p.final.isTransformer then p.final.transform_many r.1 else r.1,
   ⟨r.2, p.finalName, p.final⟩)

/-! ### Concrete stages for closed instances -/

/-- A concrete stage over `ℕ` whose state records the arguments of every
`fit_one` call it receives, used in closed witnesses and counterexamples. -/
def recEst (transformer supT supervised classifier : Bool)
    (tr : Rec ℕ → Rec ℕ) : Est ℕ ℕ ℕ (List (Rec ℕ × Option ℕ)) where
  isTransformer := transformer
  isSupT := supT
  supFlag := supervised
  isClassifier := classifier
  strRepr := "E"
  st := []
  transformOneF := fun _ x => tr x
  fitOneF := fun s x y _ => s ++ [(x, y)]
  predictOneF := fun _ _ => 0
  predictProbaOneF := fun _ _ => .dict []
  scoreOneF := fun _ _ => 0
  forecastF := none
  debugOneF := none
  transformManyF := fun _ X => X.map tr
  fitManyF := fun s _ _ _ => s

/-- A concrete stage over `ℕ` whose state records the arguments of every
`fit_many` call it receives. -/
def recEstMany (supT supervised : Bool) (tr : Rec ℕ → Rec ℕ) :
    Est ℕ ℕ ℕ (List (Batch ℕ × Option (List ℕ))) where
  isTransformer := true
  isSupT := supT
  supFlag := supervised
  isClassifier := false
  strRepr := "E"
  st := []
  transformOneF := fun _ x => tr x
  fitOneF := fun s _ _ _ => s
  predictOneF := fun _ _ => 0
  predictProbaOneF := fun _ _ => .dict []
  scoreOneF := fun _ _ => 0
  forecastF := none
  debugOneF := none
  transformManyF := fun _ X => X.map tr
  fitManyF := fun s X y _ => s ++ [(X, y)]

/-- Supervised-transformer stage `A` used in the C1 witness. -/
def estA : Est ℕ ℕ ℕ (List (Rec ℕ × Option ℕ)) :=
  recEst true true false false (fun x => Rec.dict (("t", 0) :: x.items))

/-- Predictor stage `B` used in the C1 witness. -/
def estB : Est ℕ ℕ ℕ (List (Rec ℕ × Option ℕ)) :=
  recEst false false true false id

/-! ### C1: `fit_one` avoids label leakage -/

/-- **C1.** For a two-step pipeline `[A: SupervisedTransformer, B: Predictor]`
and any record `x` and label `y`, `fit_one(x, y)` passes to the final step's
fit exactly `A.transform_one(x)` computed with `A`'s state as it was before
this call (so the label, which appears nowhere in `a.transform_one x`,
cannot influence the forwarded value), and only afterwards updates `A` with
the pre-transform record `x` and the label `y`. -/
theorem fit_one_no_label_leakage (p0 params : P) (nA nB : String)
    (a b : Est V Y P S) (x : Rec V) (y : Option Y) (ha : a.isSupT = true) :
    Pipeline.fit_one p0 ⟨[(nA, .single a)], nB, b⟩ x y params =
      ⟨[(nA, .single (a.fit_one x y p0))], nB,
        if b.supFlag then b.fit_one (a.transform_one x) y params
        else b.fit_one (a.transform_one x) none params⟩ := by
  simp [Pipeline.fit_one, fitOneSteps, Step.transform_one, ha]

/-- Closed instance of C1 at a concrete pipeline and record. -/
theorem fit_one_no_label_leakage_witness :
    estA.isSupT = true ∧
    Pipeline.fit_one 0 ⟨[("A", .single estA)], "B", estB⟩
        (.dict [("a", 1)]) (some 2) 0 =
      ⟨[("A", .single (estA.fit_one (.dict [("a", 1)]) (some 2) 0))], "B",
        if estB.supFlag then
          estB.fit_one (estA.transform_one (.dict [("a", 1)])) (some 2) 0
        else estB.fit_one (estA.transform_one (.dict [("a", 1)])) none 0⟩ :=
  ⟨rfl, fit_one_no_label_leakage 0 0 "A" "B" estA estB (.dict [("a", 1)])
    (some 2) rfl⟩

/-! ### C2: which union branches are fit during the drive-through -/

/-- Union branch that is a `SupervisedTransformer` (C2 failing input). -/
def supUnionBranch : Est ℕ ℕ ℕ (List (Rec ℕ × Option ℕ)) :=
  recEst true true false false id

/-- Union branch that is a plain transformer (C2 failing input). -/
def unsupUnionBranch : Est ℕ ℕ ℕ (List (Rec ℕ × Option ℕ)) :=
  recEst true false false false id

/-- Final predictor step for the C2 failing input. -/
def finalPredictor : Est ℕ ℕ ℕ (List (Rec ℕ × Option ℕ)) :=
  recEst false false true false id

/-- **C2 (code bug).** At the concrete failing input, `transform_one` issues
an unsupervised `fit_one(record)` call to the union branch that IS a
`SupervisedTransformer`: the guard in `_transform_one` tests the union `t`
itself instead of the branch `sub_t`, and a union is never a
`SupervisedTransformer`, so every branch is fit.  The supervised branch's
recorded state after the call is `[(x, none)]`, where the claim (and the
source's own comment, which says the unsupervised transformers are the ones
updated during transform) requires it to have received no fit call. -/
theorem transform_one_fits_supervised_union_branch :
    supUnionBranch.isSupT = true ∧
    (Pipeline.transform_one 0
        ⟨[("u", .union [("sup", supUnionBranch), ("uns", unsupUnionBranch)])],
          "f", finalPredictor⟩ (.dict [("a", 1)])).2.steps =
      [("u", .union
        [("sup", supUnionBranch.fit_one (.dict [("a", 1)]) none 0),
         ("uns", unsupUnionBranch.fit_one (.dict [("a", 1)]) none 0)])] ∧
    (supUnionBranch.fit_one (.dict [("a", 1)]) none 0).st =
      [(Rec.dict [("a", 1)], none)] :=
  ⟨rfl, rfl, rfl⟩

/-! ### C3: what `fit_many` feeds the supervised transformers -/

/-- Supervised batch transformer whose state records its `fit_many`
arguments (C3 failing input); its transform prepends a key, so the
post-transform batch is distinguishable from the input batch. -/
def supBatchTransformer : Est ℕ ℕ ℕ (List (Batch ℕ × Option (List ℕ))) :=
  recEstMany true false (fun r => Rec.dict (("t", 0) :: r.items))

/-- Final step for the C3 failing input. -/
def finalBatchPredictor : Est ℕ ℕ ℕ (List (Batch ℕ × Option (List ℕ))) :=
  recEstMany false true id

/-- **C3 (code bug).** At the concrete failing input, `fit_many` updates the
supervised transformer with the POST-transform batch and with no label: its
recorded fit argument is `(transform_many X, none)`, which differs from the
`(X, some y)` the claim (and the record path, and the source's own comment
about avoiding target leakage — note `X_pre` is bound but never used)
requires. -/
theorem fit_many_fits_post_transform_batch_without_label :
    supBatchTransformer.isSupT = true ∧
    (Pipeline.fit_many 0
        ⟨[("s", .single supBatchTransformer)], "f", finalBatchPredictor⟩
        [Rec.dict [("a", 1)]] [5] 0).steps =
      [("s", .single (supBatchTransformer.fit_many
        (supBatchTransformer.transform_many [Rec.dict [("a", 1)]]) none 0))] ∧
    (supBatchTransformer.fit_many
        (supBatchTransformer.transform_many [Rec.dict [("a", 1)]]) none 0).st =
      [([Rec.dict [("t", 0), ("a", 1)]], none)] ∧
    ([Rec.dict [("t", 0), ("a", 1)]] : Batch ℕ) ≠ [Rec.dict [("a", 1)]] :=
  ⟨rfl, rfl, rfl, by decide⟩

/-! ### C4: the final-stage dispatch of `fit_many` -/

/-- A final stage that is not label-conditioned and whose state records the
label argument of every `fit_many` call (C4 counterexample). -/
def unsupFinalMany : Est ℕ ℕ ℕ (List (Option (List ℕ))) where
  isTransformer := false
  isSupT := false
  supFlag := false
  isClassifier := false
  strRepr := "F"
  st := []
  transformOneF := fun _ x => x
  fitOneF := fun s _ _ _ => s
  predictOneF := fun _ _ => 0
  predictProbaOneF := fun _ _ => .dict []
  scoreOneF := fun _ _ => 0
  forecastF := none
  debugOneF := none
  transformManyF := fun _ X => X
  fitManyF := fun s _ y _ => s ++ [y]

/-- **C4 (counterexample).** A final stage that is NOT label-conditioned
(`_is_supervised = false`) still receives the label series in `fit_many`:
its recorded fit argument is `some [7]`, not `none`, so the two branches of
the final-stage dispatch are not observably different — the claim fails on
the code. -/
theorem fit_many_final_receives_label_when_unsupervised :
    unsupFinalMany.supFlag = false ∧
    ((Pipeline.fit_many 0 ⟨[], "f", unsupFinalMany⟩
        [Rec.dict [("a", 1)]] [7] 0).final).st = [some [7]] :=
  ⟨rfl, rfl⟩

/-- **C4 (amended).** In `fit_many` the two branches of the final-stage
dispatch are identical: the final stage always receives the driven batch,
the label series and the extra parameters, whether or not it is
label-conditioned. -/
theorem fit_many_final_dispatch_identical (p0 params : P)
    (p : Pipeline V Y P S) (X : Batch V) (y : List Y) :
    Pipeline.fit_many p0 p X y params =
      ⟨(fitManySteps p0 p.steps X).2, p.finalName,
        p.final.fit_many (fitManySteps p0 p.steps X).1 (some y) params⟩ := by
  simp [Pipeline.fit_many]

/-! ### C5: `transform_one` refines `transform_many` on a one-row batch -/

/-- Stage-level record/batch agreement: on a one-row batch the stage's
batch methods do row-wise exactly what its record methods do (the claim's
assumption "each stage's batch methods agree row-wise with its record
methods", at the granularity the pipeline exercises). -/
def RowAgrees (p0 : P) (e : Est V Y P S) : Prop :=
  (∀ s x, e.transformManyF s [x] = [e.transformOneF s x]) ∧
  (∀ s x, e.fitManyF s [x] none p0 = e.fitOneF s x none p0)

theorem foldl_zipWith_singleton (rs : List (Rec V)) (a : Rec V) :
    List.foldl (fun acc B => List.zipWith mergeRec acc B) [a]
      (rs.map fun r => [r]) = [rs.foldl mergeRec a] := by
  induction rs generalizing a with
  | nil => rfl
  | cons r rs ih => simpa using ih (mergeRec a r)

theorem unionTransformMany_single_row (bs : List (String × Est V Y P S))
    (x : Rec V)
    (h : ∀ b ∈ bs, ∀ s xx, b.2.transformManyF s [xx] = [b.2.transformOneF s xx]) :
    unionTransformMany bs [x] = [unionTransformOne bs x] := by
  unfold unionTransformMany unionTransformOne
  have hmap : (bs.map fun nb => nb.2.transform_many [x]) =
      ((bs.map fun nb => nb.2.transform_one x).map fun r => [r]) := by
    rw [List.map_map]
    apply List.map_congr_left
    intro b hb
    simpa [Est.transform_many, Est.transform_one] using h b hb b.2.st x
  rw [hmap]
  simpa using foldl_zipWith_singleton (bs.map fun nb => nb.2.transform_one x)
    (Rec.dict [])

theorem transformManySteps_single_row (p0 : P)
    (ts : List (String × Step V Y P S)) (x : Rec V)
    (h : ∀ e ∈ (ts.map fun nt => nt.2.ests).flatten, RowAgrees p0 e) :
    transformManySteps p0 ts [x] =
      ([(transformOneSteps p0 ts x).1], (transformOneSteps p0 ts x).2) := by
  induction ts generalizing x with
  | nil => rfl
  | cons nt ts ih =>
    obtain ⟨n, t⟩ := nt
    have hsplit : (((n, t) :: ts).map fun nt => nt.2.ests).flatten =
        t.ests ++ (ts.map fun nt => nt.2.ests).flatten := rfl
    have hhead : ∀ e ∈ t.ests, RowAgrees p0 e := fun e he =>
      h e (hsplit ▸ List.mem_append_left _ he)
    have hts : ∀ e ∈ (ts.map fun nt => nt.2.ests).flatten, RowAgrees p0 e :=
      fun e he => h e (hsplit ▸ List.mem_append_right _ he)
    cases t with
    | single e =>
      have he : RowAgrees p0 e := hhead e (by simp [Step.ests])
      have hfit : (if e.isSupT then e else e.fit_many [x] none p0) =
          (if e.isSupT then e else e.fit_one x none p0) := by
        by_cases hsup : e.isSupT
        · simp [hsup]
        · simp [hsup, Est.fit_many, Est.fit_one, he.2 e.st x]
      have htr : ∀ e' : Est V Y P S, e'.transformManyF = e.transformManyF →
          e'.transformOneF = e.transformOneF →
          (Step.single e').transform_many [x] = [(Step.single e').transform_one x] := by
        intro e' h1 h2
        simp [Step.transform_many, Step.transform_one, Est.transform_many,
          Est.transform_one, h1, h2, he.1]
      simp only [transformManySteps, transformOneSteps, hfit]
      rw [htr _ (by by_cases hsup : e.isSupT <;> simp [hsup, Est.fit_one])
            (by by_cases hsup : e.isSupT <;> simp [hsup, Est.fit_one]),
          ih _ hts]
    | union bs =>
      have hbr : ∀ b ∈ bs, RowAgrees p0 b.2 := fun b hb =>
        hhead b.2 (by simp only [Step.ests]; exact List.mem_map_of_mem _ hb)
      have hfit : (bs.map fun nb => (nb.1,
            if (Step.union bs : Step V Y P S).isSupT then nb.2
            else nb.2.fit_many [x] none p0)) =
          (bs.map fun nb => (nb.1,
            if (Step.union bs : Step V Y P S).isSupT then nb.2
            else nb.2.fit_one x none p0)) := by
        apply List.map_congr_left
        intro b hb
        simp [Step.isSupT, Est.fit_many, Est.fit_one, (hbr b hb).2 b.2.st x]
      have htr : (Step.union (bs.map fun nb => (nb.1,
            if (Step.union bs : Step V Y P S).isSupT then nb.2
            else nb.2.fit_one x none p0)) : Step V Y P S).transform_many [x] =
          [(Step.union (bs.map fun nb => (nb.1,
            if (Step.union bs : Step V Y P S).isSupT then nb.2
            else nb.2.fit_one x none p0)) : Step V Y P S).transform_one x] := by
        simp only [Step.transform_many, Step.transform_one]
        apply unionTransformMany_single_row
        intro b hb
        obtain ⟨nb, hnb, rfl⟩ := List.mem_map.1 hb
        have h1 : (if (Step.union bs : Step V Y P S).isSupT then nb.2
            else nb.2.fit_one x none p0).transformManyF = nb.2.transformManyF := by
          simp [Step.isSupT, Est.fit_one]
        have h2 : (if (Step.union bs : Step V Y P S).isSupT then nb.2
            else nb.2.fit_one x none p0).transformOneF = nb.2.transformOneF := by
          simp [Step.isSupT, Est.fit_one]
        intro s xx
        rw [h1, h2]
        exact (hbr nb hnb).1 s xx
      simp only [transformManySteps, transformOneSteps, hfit]
      rw [htr, ih _ hts]

/-- **C5.** For a pipeline in which every step satisfies Transformer, and
any record `x`, `transform_one(x)` equals the single row of
`transform_many` applied to the one-row batch `[x]`, and the two paths
leave the pipeline in the same state — assuming each stage's batch methods
agree row-wise with its record methods. -/
theorem transform_one_agrees_with_single_row_transform_many (p0 : P)
    (p : Pipeline V Y P S) (x : Rec V)
    (hAgree : ∀ e ∈ p.ests, RowAgrees p0 e)
    (hFinal : p.final.isTransformer = true) :
    (Pipeline.transform_many p0 p [x]).1 =
      [(Pipeline.transform_one p0 p x).1] ∧
    (Pipeline.transform_many p0 p [x]).2 = (Pipeline.transform_one p0 p x).2 := by
  have hsteps : ∀ e ∈ (p.steps.map fun nt => nt.2.ests).flatten, RowAgrees p0 e :=
    fun e he => hAgree e (List.mem_append_left _ he)
  have hfin : RowAgrees p0 p.final :=
    hAgree p.final (List.mem_append_right _ (by simp))
  have hkey := transformManySteps_single_row p0 p.steps x hsteps
  constructor
  · simp only [Pipeline.transform_many, Pipeline.transform_one, hkey, hFinal,
      if_true, Est.transform_many, Est.transform_one]
    exact hfin.1 p.final.st (transformOneSteps p0 p.steps x).1
  · simp only [Pipeline.transform_many, Pipeline.transform_one, hkey]

/-- A concrete stage whose batch methods are the row-wise liftings of its
record methods, used in the C5 witness. -/
def rowwiseEst (transformer : Bool) (tr : Rec ℕ → Rec ℕ) :
    Est ℕ ℕ ℕ (List (Rec ℕ)) where
  isTransformer := transformer
  isSupT := false
  supFlag := false
  isClassifier := false
  strRepr := "R"
  st := []
  transformOneF := fun _ x => tr x
  fitOneF := fun s x _ _ => s ++ [x]
  predictOneF := fun _ _ => 0
  predictProbaOneF := fun _ _ => .dict []
  scoreOneF := fun _ _ => 0
  forecastF := none
  debugOneF := none
  transformManyF := fun _ X => X.map tr
  fitManyF := fun s X _ _ => s ++ X

/-- The concrete all-transformer pipeline of the C5 witness: a single
transformer, then a union of one branch, then a final transformer. -/
def wPipe : Pipeline ℕ ℕ ℕ (List (Rec ℕ)) :=
  ⟨[("t", .single (rowwiseEst true (fun x => Rec.dict (("t", 0) :: x.items)))),
    ("u", .union [("b", rowwiseEst true (fun x => Rec.dict (("u", 1) :: x.items)))])],
   "f", rowwiseEst true (fun x => Rec.dict (("f", 2) :: x.items))⟩

/-- Closed instance of C5 at a concrete pipeline and record. -/
theorem transform_one_agrees_with_single_row_transform_many_witness :
    (∀ e ∈ wPipe.ests, RowAgrees (0 : ℕ) e) ∧
    wPipe.final.isTransformer = true ∧
    ((Pipeline.transform_many 0 wPipe [Rec.dict [("a", 3)]]).1 =
        [(Pipeline.transform_one 0 wPipe (Rec.dict [("a", 3)])).1] ∧
      (Pipeline.transform_many 0 wPipe [Rec.dict [("a", 3)]]).2 =
        (Pipeline.transform_one 0 wPipe (Rec.dict [("a", 3)])).2) :=
  have hA : ∀ e ∈ wPipe.ests, RowAgrees (0 : ℕ) e := by
    intro e he
    simp [wPipe, Pipeline.ests, Step.ests] at he
    rcases he with h | h | h <;> subst h <;>
      exact ⟨fun s x => rfl, fun s x => rfl⟩
  ⟨hA, rfl,
    transform_one_agrees_with_single_row_transform_many 0 wPipe
      (Rec.dict [("a", 3)]) hA rfl⟩

/-! ### C7: `forecast` -/

/-- Non-final unsupervised transformer for the C7 counterexample. -/
def c7Stage : Est ℕ ℕ ℕ (List (Rec ℕ × Option ℕ)) :=
  recEst true false false false id

/-- Final stage exposing the forecast capability (C7). -/
def forecastFinal : Est ℕ ℕ ℕ (List (Rec ℕ × Option ℕ)) :=
  { recEst false false true false id with
    strRepr := "F"
    forecastF := some fun _ horizon _ => horizon }

/-- **C7 (counterexample).** `forecast(horizon, records)` with records
supplied DOES fit stages: the list comprehension calls `_transform_one`,
whose drive-through issues an unsupervised `fit_one` to the non-final
transformer, so after the call the stage's recorded state is no longer
empty — the claim's "with no fitting of any stage" fails on the code. -/
theorem forecast_with_records_fits_stages :
    (Pipeline.forecast 0 ⟨[("t", .single c7Stage)], "f", forecastFinal⟩ 3
        (some [Rec.dict [("a", 1)]])).2.steps =
      [("t", .single (c7Stage.fit_one (Rec.dict [("a", 1)]) none 0))] ∧
    (c7Stage.fit_one (Rec.dict [("a", 1)]) none 0).st =
      [(Rec.dict [("a", 1)], none)] ∧
    c7Stage.st = [] :=
  ⟨rfl, rfl, rfl⟩

/-- **C7 (amended).** `forecast(horizon)` with no records supplied calls the
final stage's forecast capability with records absent and returns its
result unchanged, leaving the pipeline untouched (and produces no result
when the final stage lacks the capability, the `Option.map` over `none`);
when records are supplied, each record is driven in sequence through the
non-final steps — which opportunistically fits non-supervised stages, the
mutated steps carrying over from record to record — and the transformed
records are delegated to the final stage's forecast capability. -/
theorem forecast_delegates_to_final (p0 : P) (p : Pipeline V Y P S)
    (horizon : Nat) :
    Pipeline.forecast p0 p horizon none =
      (p.final.forecastF.map fun f => f p.final.st horizon none, p) ∧
    ∀ xs : List (Rec V),
      Pipeline.forecast p0 p horizon (some xs) =
        (p.final.forecastF.map fun f =>
            f p.final.st horizon (some (driveRecords p0 p.steps xs).1),
         ⟨(driveRecords p0 p.steps xs).2, p.finalName, p.final⟩) :=
  ⟨rfl, fun _ => rfl⟩

/-! ### The debug tracer -/

/-- Four-space indentation used by `debug_one` (`tab = ' ' * 4`). -/
def tab : String := "    "

/-- `print_title(title, indent)`: the title line and its underline of
dashes (`'-' * len(title)`). -/
def print_title (title : String) (indent : Bool) : List String :=
  [(if indent then tab else "") ++ title,
   (if indent then tab else "") ++ String.mk (List.replicate title.length '-')]

/-- Insertion step of the key sort (helper for `sorted(x.items())`). -/
def insertByKey (kv : String × V) : List (String × V) → List (String × V)
  | [] => [kv]
  | q :: qs => if kv.1 ≤ q.1 then kv :: q :: qs else q :: insertByKey kv qs

/-- `sorted(x.items())`: the items sorted by key (dict keys are unique, so
Python's tuple sort is a sort by key). -/
def sortByKey : List (String × V) → List (String × V)
  | [] => []
  | kv :: kvs => insertByKey kv (sortByKey kvs)

/-- `print_dict(x, show_types, indent, space_after)`: the string itself for
a string record, else one `key: value` line per item in key order, followed
by a blank line when `space_after`.  `fmt` abstracts `format_value`
(Python's fixed-decimal float formatting, `str` otherwise) and `tyName`
abstracts `type(v).__name__`. -/
def print_dict (fmt tyName : V → String) (show_types indent space_after : Bool)
    (x : Rec V) : List String :=
  (match x with
   | .str s => [s]
   | .dict kvs =>
     (sortByKey kvs).map fun kv =>
       (if indent then tab else "") ++ kv.1 ++ ": " ++ fmt kv.2 ++
         (if show_types then " (" ++ tyName kv.2 ++ ")" else ""))
  ++ (if space_after then [""] else [])

/-- A stage-method call issued by `debug_one`, recorded for the frame
analysis. -/
inductive DCall where
  | transformOne (who : String)
  | predictOne (who : String)
  | predictProbaOne (who : String)
  | debugOne (who : String)
  | fitOne (who : String)
  deriving DecidableEq, Repr

/-- Is the call a fit (state-updating) call? -/
def DCall.isFit : DCall → Bool
  | .fitOne _ => true
  | _ => false

/-- The result of the `debug_one` step loop: printed lines, issued
stage-method calls, and the record after the steps so far. -/
structure DebugOut (V : Type) where
  lines : List String
  calls : List DCall
  x : Rec V

/-- The loop of `debug_one` over the first `n - 1` steps (`enumerate`d from
`i`): for a union, print the `Transformer union` header, then for every
branch a nested `i+1.j` sub-header followed by that branch's
`transform_one` output on the current (pre-union) record, then apply the
union's own transform and print the merged record; otherwise print the
stage's header (`str(t)`) and its transform output.  No stage is fit. -/
def debugSteps (fmt tyName : V → String) (show_types : Bool) :
    Nat → List (String × Step V Y P S) → Rec V → DebugOut V
  | _, [], x => ⟨[], [], x⟩
  | i, (nm, t) :: ts, x =>
    match t with
    | .union bs =>
      let header := print_title (s!"{i+1}. Transformer union") false
      let bblocks := (bs.enum.map fun jnb =>
        let j := jnb.1
        let bn := jnb.2.1
        let b := jnb.2.2
        print_title (s!"{i+1}.{j} {bn}") true ++
          print_dict fmt tyName show_types true true (b.transform_one x)).flatten
      let bcalls := bs.map fun nb => DCall.transformOne nb.1
      let x' := (Step.union bs : Step V Y P S).transform_one x
      let merged := print_dict fmt tyName show_types false true x'
      let r := debugSteps fmt tyName show_types (i+1) ts x'
      ⟨header ++ bblocks ++ merged ++ r.lines,
       bcalls ++ [DCall.transformOne nm] ++ r.calls, r.x⟩
    | .single e =>
      let header := print_title (s!"{i+1}. {e.strRepr}") false
      let x' := e.transform_one x
      let r := debugSteps fmt tyName show_types (i+1) ts x'
      ⟨header ++ print_dict fmt tyName show_types false true x' ++ r.lines,
       DCall.transformOne nm :: r.calls, r.x⟩

/-- The trailing block of `debug_one`, emitted only when the final step is
not a transformer: the final header (numbered with the step count), the
final stage's own `debug_one` text when it exposes one, a blank line, and
the prediction — the full unformatted probability mapping for a classifier,
else a single formatted `Prediction:` line.  (`show_types` is not consulted
in this block: the probability mapping is printed with `show_types=False`.) -/
def debugFinal (fmt tyName : V → String) (stepCount : Nat) (finalName : String)
    (fin : Est V Y P S) (x : Rec V) : List String × List DCall :=
  if fin.isTransformer then ([], [])
  else
    let t1 := print_title (s!"{stepCount}. {fin.strRepr}") false
    let dbg : List String × List DCall :=
      match fin.debugOneF with
      | some d => ([d fin.st x], [DCall.debugOne finalName])
      | none => ([], [])
    let predL : List String × List DCall :=
      if fin.isClassifier then
        (print_dict fmt tyName false false false (fin.predict_proba_one x),
         [DCall.predictProbaOne finalName])
      else
        (["Prediction: " ++ fmt (fin.predict_one x)],
         [DCall.predictOne finalName])
    (t1 ++ dbg.1 ++ [""] ++ predL.1, dbg.2 ++ predL.2)

/-- `Pipeline.debug_one(x, show_types, n_decimals)`: the printed lines (the
source joins them with newlines into one right-stripped buffer) together
with the stage-method calls issued.  Prints the `0. Input` header and the
input record, replays the steps, then the final block. -/
def Pipeline.debug_one (fmt tyName : V → String) (show_types : Bool)
    (p : Pipeline V Y P S) (x : Rec V) : List String × List DCall :=
  let headLines :=
    print_title "0. Input" false ++ print_dict fmt tyName show_types false true x
  let body := debugSteps fmt tyName show_types 0 p.steps x
  let fs := debugFinal fmt tyName (p.steps.length + 1) p.finalName p.final body.x
  (headLines ++ body.lines ++ fs.1, body.calls ++ fs.2)

/-! ### C10: `debug_one` performs no fitting -/

theorem debugSteps_no_fit_mem (fmt tyName : V → String) (show_types : Bool)
    (i : Nat) (ts : List (String × Step V Y P S)) (x : Rec V) :
    ∀ c ∈ (debugSteps fmt tyName show_types i ts x).calls, c.isFit = false := by
  induction ts generalizing i x with
  | nil => intro c hc; simp [debugSteps] at hc
  | cons nt ts ih =>
    obtain ⟨nm, t⟩ := nt
    intro c hc
    cases t with
    | union bs =>
      simp only [debugSteps] at hc
      rcases List.mem_append.1 hc with hab | hr
      · rcases List.mem_append.1 hab with ha | hb
        · obtain ⟨nb, _, rfl⟩ := List.mem_map.1 ha
          rfl
        · have hcb := List.mem_singleton.1 hb
          subst hcb
          rfl
      · exact ih _ _ c hr
    | single e =>
      simp only [debugSteps, List.mem_cons] at hc
      rcases hc with rfl | hc
      · rfl
      · exact ih _ _ c hc

theorem debugFinal_no_fit_mem (fmt tyName : V → String) (stepCount : Nat)
    (finalName : String) (fin : Est V Y P S) (x : Rec V) :
    ∀ c ∈ (debugFinal fmt tyName stepCount finalName fin x).2, c.isFit = false := by
  intro c hc
  by_cases hT : fin.isTransformer <;>
    rcases hdbg : fin.debugOneF with _ | d <;>
    by_cases hC : fin.isClassifier <;>
    simp only [debugFinal, hT, hdbg, hC, if_true, if_false, Bool.false_eq_true,
      ite_true, ite_false, List.mem_append, List.mem_cons, List.mem_singleton,
      List.not_mem_nil, or_false, false_or] at hc <;>
    first
      | exact hc.elim
      | (rcases hc with rfl | rfl <;> rfl)

/-- **C10.** `debug_one` issues no fit call to any stage or union branch:
every stage-method call recorded while producing the trace is a read-only
`transform_one` / `predict_one` / `predict_proba_one` / `debug_one` call,
never a fit — so, unlike the drive-through used by transform/predict,
producing the debug trace triggers no opportunistic unsupervised updates by
the pipeline. -/
theorem debug_one_issues_no_fit (fmt tyName : V → String) (show_types : Bool)
    (p : Pipeline V Y P S) (x : Rec V) :
    ((Pipeline.debug_one fmt tyName show_types p x).2.all fun c => !c.isFit) =
      true := by
  rw [List.all_eq_true]
  intro c hc
  simp only [Pipeline.debug_one, List.mem_append] at hc
  rcases hc with hc | hc
  · simp [debugSteps_no_fit_mem fmt tyName show_types 0 p.steps x c hc]
  · simp [debugFinal_no_fit_mem fmt tyName _ _ _ _ c hc]

/-! ### C8: union branch sub-outputs in `debug_one` -/

theorem debugSteps_append (fmt tyName : V → String) (show_types : Bool)
    (i : Nat) (as bs' : List (String × Step V Y P S)) (x : Rec V) :
    debugSteps fmt tyName show_types i (as ++ bs') x =
      ⟨(debugSteps fmt tyName show_types i as x).lines ++
         (debugSteps fmt tyName show_types (i + as.length) bs'
           (debugSteps fmt tyName show_types i as x).x).lines,
       (debugSteps fmt tyName show_types i as x).calls ++
         (debugSteps fmt tyName show_types (i + as.length) bs'
           (debugSteps fmt tyName show_types i as x).x).calls,
       (debugSteps fmt tyName show_types (i + as.length) bs'
         (debugSteps fmt tyName show_types i as x).x).x⟩ := by
  induction as generalizing i x with
  | nil => simp [debugSteps]
  | cons nt as ih =>
    obtain ⟨nm, t⟩ := nt
    have harith : i + 1 + as.length = i + (as.length + 1) := by omega
    cases t with
    | union bs =>
      simp only [List.cons_append, debugSteps, List.append_eq, ih,
        List.length_cons, harith, List.append_assoc, List.nil_append]
    | single e =>
      simp only [List.cons_append, debugSteps, List.append_eq, ih,
        List.length_cons, harith, List.append_assoc, List.nil_append]

theorem debugSteps_x_eq_fold (fmt tyName : V → String) (show_types : Bool)
    (i : Nat) (ts : List (String × Step V Y P S)) (x : Rec V) :
    (debugSteps fmt tyName show_types i ts x).x =
      (ts.map fun nt => nt.2).foldl (fun r t => t.transform_one r) x := by
  induction ts generalizing i x with
  | nil => rfl
  | cons nt ts ih =>
    obtain ⟨nm, t⟩ := nt
    cases t <;> simp [debugSteps, ih, Step.transform_one]

/-- **C8.** In `debug_one`, the sub-output printed for each branch of a
non-final union (under the nested `i.j` header) equals the result of
calling that branch's `transform_one` directly on the pre-union record —
the record obtained by folding the preceding steps' transforms over the
input — independently of any sibling branch: the branch outputs are not
accumulated into one another. -/
theorem debug_one_union_branch_blocks (fmt tyName : V → String)
    (show_types : Bool) (pre post : List (String × Step V Y P S))
    (un fname : String) (bs : List (String × Est V Y P S))
    (fin : Est V Y P S) (x : Rec V) :
    ∃ before after,
      (Pipeline.debug_one fmt tyName show_types
          ⟨pre ++ (un, Step.union bs) :: post, fname, fin⟩ x).1 =
        before ++
          (bs.enum.map fun jnb =>
            let j := jnb.1
            let bn := jnb.2.1
            let b := jnb.2.2
            print_title (s!"{pre.length+1}.{j} {bn}") true ++
              print_dict fmt tyName show_types true true
                (b.transform_one
                  ((pre.map fun nt => nt.2).foldl
                    (fun r t => t.transform_one r) x))).flatten ++
          after := by
  simp only [Pipeline.debug_one,
    debugSteps_append fmt tyName show_types 0 pre ((un, Step.union bs) :: post) x,
    debugSteps_x_eq_fold fmt tyName show_types 0 pre x, Nat.zero_add]
  simp only [debugSteps]
  refine ⟨(print_title "0. Input" false ++
      print_dict fmt tyName show_types false true x) ++
      (debugSteps fmt tyName show_types 0 pre x).lines ++
      print_title (s!"{pre.length+1}. Transformer union") false,
    print_dict fmt tyName show_types false true
        ((Step.union bs : Step V Y P S).transform_one
          ((pre.map fun nt => nt.2).foldl (fun r t => t.transform_one r) x)) ++
      (debugSteps fmt tyName show_types (pre.length + 1) post
        ((Step.union bs : Step V Y P S).transform_one
          ((pre.map fun nt => nt.2).foldl (fun r t => t.transform_one r) x))).lines ++
      (debugFinal fmt tyName ((pre ++ (un, Step.union bs) :: post).length + 1)
        fname fin
        (debugSteps fmt tyName show_types (pre.length + 1) post
          ((Step.union bs : Step V Y P S).transform_one
            ((pre.map fun nt => nt.2).foldl
              (fun r t => t.transform_one r) x))).x).1, ?_⟩
  simp [List.append_assoc]

/-! ### Decimal representation facts

`_add_step` disambiguates colliding names with `f'{name}{counter}'`, i.e.
`name ++ Nat.repr counter`; freshness of the chosen name rests on the
injectivity of the decimal representation, proved here by a decode
round-trip. -/

/-- The decimal digit list of `n`, most significant digit first (the
unfolded form of `Nat.toDigits 10`). -/
def tdr (n : Nat) : List Char :=
  if h : n / 10 = 0 then [Nat.digitChar (n % 10)]
  else tdr (n / 10) ++ [Nat.digitChar (n % 10)]
decreasing_by
  have h10 : 10 ≤ n := by
    by_contra hlt
    exact h (Nat.div_eq_of_lt (by omega))
  exact Nat.div_lt_self (by omega) (by omega)

theorem toDigitsCore_eq_tdr :
    ∀ (fuel n : Nat) (ds : List Char), n < 10 ^ fuel → 0 < fuel →
      Nat.toDigitsCore 10 fuel n ds = tdr n ++ ds := by
  intro fuel
  induction fuel with
  | zero => intro n ds _ hf; omega
  | succ f ih =>
    intro n ds hlt _
    rw [Nat.toDigitsCore]
    by_cases h : n / 10 = 0
    · rw [if_pos h, tdr, dif_pos h]
      rfl
    · rw [if_neg h]
      have h10 : 10 ≤ n := by
        by_contra hlt'
        exact h (Nat.div_eq_of_lt (by omega))
      have hfpos : 0 < f := by
        rcases Nat.eq_zero_or_pos f with rfl | hf
        · simp at hlt; omega
        · exact hf
      have hdiv : n / 10 < 10 ^ f := by
        rw [Nat.div_lt_iff_lt_mul (by omega)]
        calc n < 10 ^ (f + 1) := hlt
        _ = 10 ^ f * 10 := by rw [Nat.pow_succ]
      rw [ih (n / 10) (Nat.digitChar (n % 10) :: ds) hdiv hfpos]
      conv_rhs => rw [tdr]
      rw [dif_neg h, List.append_assoc]
      rfl

theorem toDigits_eq_tdr (n : Nat) : Nat.toDigits 10 n = tdr n := by
  have h1 : n < 10 ^ (n + 1) :=
    lt_of_lt_of_le (Nat.lt_pow_self (by omega) n)
      (Nat.pow_le_pow_right (by omega) (Nat.le_succ n))
  have := toDigitsCore_eq_tdr (n + 1) n [] h1 (by omega)
  rw [Nat.toDigits, this, List.append_nil]

/-- The numeric value of a decimal digit character. -/
def digitVal (c : Char) : Nat := c.toNat - '0'.toNat

/-- Decode a decimal digit string, most significant digit first. -/
def decodeDigits (l : List Char) : Nat :=
  l.foldl (fun a c => a * 10 + digitVal c) 0

theorem digitVal_digitChar (d : Nat) (h : d < 10) :
    digitVal (Nat.digitChar d) = d := by
  interval_cases d <;> decide

theorem decodeDigits_append_digit (l : List Char) (c : Char) :
    decodeDigits (l ++ [c]) = decodeDigits l * 10 + digitVal c := by
  simp [decodeDigits, List.foldl_append]

theorem decodeDigits_tdr (n : Nat) : decodeDigits (tdr n) = n := by
  induction n using Nat.strong_induction_on with
  | _ n ih =>
    rw [tdr]
    by_cases h : n / 10 = 0
    · rw [dif_pos h]
      have := digitVal_digitChar (n % 10) (Nat.mod_lt n (by omega))
      simp [decodeDigits, this]
      omega
    · rw [dif_neg h, decodeDigits_append_digit,
        ih (n / 10) (Nat.div_lt_self (by omega) (by omega)),
        digitVal_digitChar (n % 10) (Nat.mod_lt n (by omega))]
      omega

theorem natRepr_injective : Function.Injective Nat.repr := by
  intro m n h
  have hdig : Nat.toDigits 10 m = Nat.toDigits 10 n := List.asString_inj.1 h
  rw [toDigits_eq_tdr, toDigits_eq_tdr] at hdig
  calc m = decodeDigits (tdr m) := (decodeDigits_tdr m).symm
  _ = decodeDigits (tdr n) := by rw [hdig]
  _ = n := decodeDigits_tdr n

theorem append_natRepr_injective (nm : String) :
    Function.Injective fun k : Nat => nm ++ Nat.repr k := by
  intro a b h
  apply natRepr_injective
  apply String.ext
  have hd := congrArg String.data h
  simp only [String.data_append] at hd
  exact List.append_cancel_left hd

/-! ### The step registry (`_add_step`) -/

/-- The shapes a step handed to `_add_step` can take, for the purpose of
name inference: an estimator instance (with its `__class__.__name__`), a
plain function (with its `__name__`), a `func.FuncTransformer` wrapping a
value, or an uninstantiated type (whose own `__class__.__name__` is the
name of its metaclass). -/
inductive AddEst where
  | inst (cname : String)
  | fn (fname : String)
  | funcT (inner : AddEst)
  | cls (metaName : String) (cname : String)
  deriving DecidableEq, Repr

/-- The function-wrapping step of `_add_step`: "If the step is a function
then wrap it in a FuncTransformer". -/
def sanitize : AddEst → AddEst
  | .fn f => .funcT (.fn f)
  | e => e

/-- `infer_name`: unwrap a `FuncTransformer` to its function, use a
function's own name, else the `__class__.__name__` (for an uninstantiated
type this is the metaclass's name; the `str(estimator)` fallback is
unreachable since everything has a `__class__`). -/
def infer_name : AddEst → String
  | .funcT inner => infer_name inner
  | .fn f => f
  | .inst c => c
  | .cls m _ => m

/-- "Instantiate the estimator if it hasn't been done":
`if isinstance(estimator, type): estimator = estimator()`. -/
def instantiate : AddEst → AddEst
  | .cls _ c => .inst c
  | e => e

/-- The registry's key list (the keys of the ordered `steps` dict). -/
def regKeys (steps : List (String × AddEst)) : List String := steps.map (·.1)

/-- The `while f'{name}{counter}' in self.steps: counter += 1` loop,
fuelled (the fuel is an upper bound on the number of iterations; pigeonhole
shows `len(steps) + 1` trials always suffice). -/
def suffixLoop (ks : List String) (nm : String) : Nat → Nat → Nat
  | c, 0 => c
  | c, fuel+1 =>
    if (nm ++ Nat.repr c) ∈ ks then suffixLoop ks nm (c+1) fuel else c

/-- The collision-resolution step of `_add_step`:

    if name in self.steps:
        counter = 1
        while f'{name}{counter}' in self.steps:
            counter += 1
        name = f'{name}{counter}'
-/
def chooseName (ks : List String) (nm : String) : String :=
  if nm ∈ ks then nm ++ Nat.repr (suffixLoop ks nm 1 (ks.length + 1))
  else nm

/-- `self.steps.move_to_end(name, last=False)`: the entry with the given
key moves to the front; the relative order of the others is unchanged
(keys are unique, so the filter keeps exactly that entry). -/
def move_to_front (steps : List (String × AddEst)) (nm : String) :
    List (String × AddEst) :=
  steps.filter (fun kv => kv.1 == nm) ++ steps.filter (fun kv => kv.1 != nm)

/-- `Pipeline._add_step(estimator, at_start)`: unpack an optional explicit
name, wrap functions, infer a name when none is given, resolve collisions,
instantiate bare types, store at the end, and move to the front when
`at_start`. -/
def add_step (steps : List (String × AddEst)) (item : Option String × AddEst)
    (at_start : Bool) : List (String × AddEst) :=
  let est0 := sanitize item.2
  let nm0 :=
    match item.1 with
    | some n => n
    | none => infer_name est0
  let nm := chooseName (regKeys steps) nm0
  let est := instantiate est0
  let steps' := steps ++ [(nm, est)]
  if at_start then move_to_front steps' nm else steps'

theorem suffixLoop_spec (ks : List String) (nm : String) :
    ∀ (fuel c : Nat),
      (∃ j, c ≤ j ∧ j < c + fuel ∧ (nm ++ Nat.repr j) ∉ ks) →
      c ≤ suffixLoop ks nm c fuel ∧
      (nm ++ Nat.repr (suffixLoop ks nm c fuel)) ∉ ks ∧
      ∀ i, c ≤ i → i < suffixLoop ks nm c fuel → (nm ++ Nat.repr i) ∈ ks := by
  intro fuel
  induction fuel with
  | zero =>
    intro c h
    obtain ⟨j, hj1, hj2, _⟩ := h
    omega
  | succ fuel ih =>
    intro c hex
    rw [suffixLoop]
    by_cases hc : (nm ++ Nat.repr c) ∈ ks
    · rw [if_pos hc]
      have hex' : ∃ j, c + 1 ≤ j ∧ j < (c + 1) + fuel ∧
          (nm ++ Nat.repr j) ∉ ks := by
        obtain ⟨j, hj1, hj2, hj3⟩ := hex
        refine ⟨j, ?_, by omega, hj3⟩
        rcases Nat.eq_or_lt_of_le hj1 with rfl | hlt
        · exact absurd hc hj3
        · omega
      obtain ⟨h1, h2, h3⟩ := ih (c + 1) hex'
      refine ⟨by omega, h2, ?_⟩
      intro i hi1 hi2
      rcases Nat.eq_or_lt_of_le hi1 with rfl | hlt
      · exact hc
      · exact h3 i (by omega) hi2
    · rw [if_neg hc]
      exact ⟨Nat.le_refl c, hc,
        fun i h1 h2 => (Nat.lt_irrefl c (Nat.lt_of_le_of_lt h1 h2)).elim⟩

theorem exists_free_suffix (ks : List String) (nm : String) :
    ∃ j, 1 ≤ j ∧ j < 1 + (ks.length + 1) ∧ (nm ++ Nat.repr j) ∉ ks := by
  by_contra hall
  push_neg at hall
  have hinj : Function.Injective
      fun i : Fin (ks.length + 1) => nm ++ Nat.repr (i.1 + 1) := by
    intro a b h
    have := append_natRepr_injective nm h
    exact Fin.ext (by omega)
  have hsub : (Finset.univ.image
      fun i : Fin (ks.length + 1) => nm ++ Nat.repr (i.1 + 1)) ⊆ ks.toFinset := by
    refine Finset.image_subset_iff.2 fun i _ => ?_
    rw [List.mem_toFinset]
    exact hall (i.1 + 1) (by omega) (by omega)
  have hcard := Finset.card_le_card hsub
  rw [Finset.card_image_of_injective _ hinj, Finset.card_univ,
    Fintype.card_fin] at hcard
  have := ks.toFinset_card_le
  omega

theorem chooseName_not_mem (ks : List String) (nm : String) :
    chooseName ks nm ∉ ks := by
  rw [chooseName]
  by_cases h : nm ∈ ks
  · rw [if_pos h]
    obtain ⟨j, hj1, hj2, hj3⟩ := exists_free_suffix ks nm
    exact (suffixLoop_spec ks nm (ks.length + 1) 1 ⟨j, hj1, hj2, hj3⟩).2.1
  · rw [if_neg h]
    exact h

theorem chooseName_minimal (ks : List String) (nm : String) (h : nm ∈ ks) :
    ∃ c, 1 ≤ c ∧ chooseName ks nm = nm ++ Nat.repr c ∧
      (nm ++ Nat.repr c) ∉ ks ∧
      ∀ j, 1 ≤ j → j < c → (nm ++ Nat.repr j) ∈ ks := by
  obtain ⟨j, hj1, hj2, hj3⟩ := exists_free_suffix ks nm
  obtain ⟨h1, h2, h3⟩ := suffixLoop_spec ks nm (ks.length + 1) 1 ⟨j, hj1, hj2, hj3⟩
  exact ⟨suffixLoop ks nm 1 (ks.length + 1), h1, by rw [chooseName, if_pos h],
    h2, h3⟩

theorem add_step_prepend (steps : List (String × AddEst))
    (item : Option String × AddEst) :
    add_step steps item true =
      (chooseName (regKeys steps)
          (match item.1 with
           | some n => n
           | none => infer_name (sanitize item.2)),
        instantiate (sanitize item.2)) :: steps := by
  have hfresh := chooseName_not_mem (regKeys steps)
    (match item.1 with
     | some n => n
     | none => infer_name (sanitize item.2))
  rw [add_step]
  simp only [if_true]
  rw [move_to_front]
  have h1 : ∀ kv ∈ steps, ¬(kv.1 ==
      chooseName (regKeys steps)
        (match item.1 with
         | some n => n
         | none => infer_name (sanitize item.2)) : Bool) = true := by
    intro kv hkv heq
    have hk : kv.1 = chooseName (regKeys steps)
        (match item.1 with
         | some n => n
         | none => infer_name (sanitize item.2)) := eq_of_beq heq
    exact hfresh (by
      rw [← hk]
      exact List.mem_map_of_mem _ hkv)
  rw [List.filter_append, List.filter_append]
  rw [List.filter_eq_nil_iff.2 h1]
  have h2 : steps.filter (fun kv => kv.1 !=
      chooseName (regKeys steps)
        (match item.1 with
         | some n => n
         | none => infer_name (sanitize item.2))) = steps := by
    apply List.filter_eq_self.2
    intro kv hkv
    simp only [bne_iff_ne, ne_eq]
    intro heq
    exact h1 kv hkv (by rw [heq]; exact beq_self_eq_true _)
  rw [h2]
  simp

theorem add_step_keys_nodup (steps : List (String × AddEst))
    (item : Option String × AddEst) (at_start : Bool)
    (h : (regKeys steps).Nodup) :
    (regKeys (add_step steps item at_start)).Nodup := by
  cases at_start with
  | true =>
    rw [add_step_prepend]
    simp only [regKeys, List.map_cons]
    exact List.nodup_cons.2 ⟨chooseName_not_mem _ _, h⟩
  | false =>
    rw [add_step]
    simp only [if_false, Bool.false_eq_true, ite_false]
    simp only [regKeys, List.map_append, List.map_cons, List.map_nil]
    rw [List.nodup_append]
    exact ⟨h, List.nodup_singleton _,
      by simp only [List.disjoint_singleton]; exact chooseName_not_mem _ _⟩

/-- **C6.** Registry naming: (1) after every append/prepend the step names
are unique; (2) on a collision the smallest unused positive integer suffix
is appended; (3) adding three unnamed stages of the same class to an empty
registry yields the keys `Name`, `Name1`, `Name2` in insertion order;
(4) prepend stores the new entry at the front without reordering the
others. -/
theorem add_step_registry_properties :
    (∀ (steps : List (String × AddEst)) (item : Option String × AddEst)
        (at_start : Bool), (regKeys steps).Nodup →
        (regKeys (add_step steps item at_start)).Nodup) ∧
    (∀ (ks : List String) (nm : String), nm ∈ ks →
      ∃ c, 1 ≤ c ∧ chooseName ks nm = nm ++ Nat.repr c ∧
        (nm ++ Nat.repr c) ∉ ks ∧
        ∀ j, 1 ≤ j → j < c → (nm ++ Nat.repr j) ∈ ks) ∧
    (add_step (add_step (add_step [] (none, .inst "Name") false)
        (none, .inst "Name") false) (none, .inst "Name") false =
      [("Name", .inst "Name"), ("Name1", .inst "Name"),
       ("Name2", .inst "Name")]) ∧
    (∀ (steps : List (String × AddEst)) (item : Option String × AddEst),
      add_step steps item true =
        (chooseName (regKeys steps)
            (match item.1 with
             | some n => n
             | none => infer_name (sanitize item.2)),
          instantiate (sanitize item.2)) :: steps) :=
  ⟨add_step_keys_nodup, chooseName_minimal, by decide, add_step_prepend⟩

/-- Closed instance of C6: uniqueness after a colliding append, minimality
of the chosen suffix on a concrete registry, and a concrete prepend. -/
theorem add_step_registry_properties_witness :
    (regKeys (add_step [("Name", AddEst.inst "Name")]
        (none, .inst "Name") false)).Nodup ∧
    (∃ c, 1 ≤ c ∧ chooseName ["Name"] "Name" = "Name" ++ Nat.repr c ∧
      ("Name" ++ Nat.repr c) ∉ ["Name"] ∧
      ∀ j, 1 ≤ j → j < c → ("Name" ++ Nat.repr j) ∈ ["Name"]) ∧
    add_step [("B", AddEst.inst "B")] (none, .inst "A") true =
      [("A", .inst "A"), ("B", .inst "B")] :=
  ⟨add_step_registry_properties.1 [("Name", .inst "Name")]
      (none, .inst "Name") false (by decide),
   add_step_registry_properties.2.1 ["Name"] "Name" (by decide),
   by rw [add_step_registry_properties.2.2.2]; decide⟩

/-! ### C9: `draw` and the `Network` helper -/

/-- A node of the drawing `Network`: either a plain string label or a
nested network (a `Network` value used as a node, as `networkify` produces
for unions, nested pipelines and wrappers). -/
inductive GNode where
  | str (s : String)
  | net (nodes : List GNode) (edges : Finset (Nat × Nat)) (directed : Bool)
      (gname : Option String) (labelloc : Option String)

mutual
/-- Python `==` between graph nodes: strings compare as strings; `Network`
values, being `UserList`s, compare by their node lists alone; a string and
a network are never equal. -/
def gnodeBEq : GNode → GNode → Bool
  | .str a, .str b => a == b
  | .net as _ _ _ _, .net bs _ _ _ _ => gnodeListBEq as bs
  | _, _ => false

def gnodeListBEq : List GNode → List GNode → Bool
  | [], [] => true
  | a :: as, b :: bs => gnodeBEq a b && gnodeListBEq as bs
  | _, _ => false
end

/-- The `Network` drawing helper: a deduplicated node list and a set of
edges between node indices. -/
structure Network where
  nodes : List GNode
  edges : Finset (Nat × Nat)
  directed : Bool
  gname : Option String
  labelloc : Option String

/-- `Network.append(a)`: add the node unless an equal one is already
present. -/
def Network.append (n : Network) (a : GNode) : Network :=
  if n.nodes.any fun b => gnodeBEq b a then n
  else { n with nodes := n.nodes ++ [a] }

/-- `self.index(a)`: the first position holding a node equal to `a`. -/
def gIndexOf (l : List GNode) (a : GNode) : Nat :=
  l.findIdx fun b => gnodeBEq b a

/-- `Network.link(a, b)`: append both endpoints (deduplicating) and record
the edge as the pair of their indices. -/
def Network.link (n : Network) (a b : GNode) : Network :=
  let n1 := n.append a
  let n2 := n1.append b
  { n2 with edges := insert (gIndexOf n2.nodes a, gIndexOf n2.nodes b) n2.edges }

/-- `Network(nodes, edges, directed, name, labelloc)`: start empty, append
every given node, link every given edge. -/
def Network.init (nodes : List GNode) (edges : List (GNode × GNode))
    (directed : Bool) (gname labelloc : Option String) : Network :=
  let n0 : Network := ⟨[], ∅, directed, gname, labelloc⟩
  let n1 := nodes.foldl Network.append n0
  edges.foldl (fun n ab => n.link ab.1 ab.2) n1

/-- `networkify(step)` for the steps of this embedding: a union becomes an
undirected network of its branches (each branch a leaf label); a leaf step
becomes its textual label `str(step)`.  (Nested pipelines and wrapper
models are outside this embedding's step grammar.) -/
def networkifyStep : Step V Y P S → GNode
  | .single e => .str e.strRepr
  | .union bs =>
    let n := Network.init (bs.map fun nb => GNode.str nb.2.strRepr) [] false
      none none
    .net n.nodes n.edges n.directed n.gname n.labelloc

/-- `Pipeline.draw()` up to the external rendering backend: the generic
`Network` the source builds and then hands to graphviz — the synthetic
input node `'x'`, one node per step linked in order, and the synthetic
output node `'y'`. -/
def Pipeline.draw (p : Pipeline V Y P S) : Network :=
  let net0 := Network.init [GNode.str "x"] [] true none none
  let r := (p.steps.map (·.2) ++ [Step.single p.final]).foldl
    (fun acc step =>
      let current := networkifyStep step
      (acc.1.link acc.2 current, current))
    (net0, GNode.str "x")
  r.1.link r.2 (GNode.str "y")

/-- **C9.** For a pipeline of exactly three sequential leaf stages whose
labels are pairwise distinct and distinct from the synthetic endpoint
labels, `draw` builds a graph with exactly 5 nodes (the synthetic input and
output plus the 3 leaves) and exactly 4 edges forming the single directed
chain input → s1 → s2 → s3 → output. -/
theorem draw_three_leaf_chain (a b c : Est V Y P S) (n1 n2 n3 : String)
    (hab : a.strRepr ≠ b.strRepr) (hac : a.strRepr ≠ c.strRepr)
    (hbc : b.strRepr ≠ c.strRepr)
    (hax : a.strRepr ≠ "x") (hay : a.strRepr ≠ "y")
    (hbx : b.strRepr ≠ "x") (hby : b.strRepr ≠ "y")
    (hcx : c.strRepr ≠ "x") (hcy : c.strRepr ≠ "y") :
    (Pipeline.draw ⟨[(n1, .single a), (n2, .single b)], n3, c⟩).nodes =
      [.str "x", .str a.strRepr, .str b.strRepr, .str c.strRepr, .str "y"] ∧
    (Pipeline.draw ⟨[(n1, .single a), (n2, .single b)], n3, c⟩).edges =
      {(0, 1), (1, 2), (2, 3), (3, 4)} ∧
    (Pipeline.draw ⟨[(n1, .single a), (n2, .single b)], n3, c⟩).nodes.length =
      5 ∧
    (Pipeline.draw ⟨[(n1, .single a), (n2, .single b)], n3, c⟩).edges.card =
      4 ∧
    (Pipeline.draw ⟨[(n1, .single a), (n2, .single b)], n3, c⟩).directed =
      true := by
  have f1 : (("x" : String) == a.strRepr) = false :=
    beq_eq_false_iff_ne.2 (Ne.symm hax)
  have f2 : (("x" : String) == b.strRepr) = false :=
    beq_eq_false_iff_ne.2 (Ne.symm hbx)
  have f3 : (("x" : String) == c.strRepr) = false :=
    beq_eq_false_iff_ne.2 (Ne.symm hcx)
  have f4 : (a.strRepr == b.strRepr) = false := beq_eq_false_iff_ne.2 hab
  have f5 : (a.strRepr == c.strRepr) = false := beq_eq_false_iff_ne.2 hac
  have f6 : (b.strRepr == c.strRepr) = false := beq_eq_false_iff_ne.2 hbc
  have f7 : (a.strRepr == "y") = false := beq_eq_false_iff_ne.2 hay
  have f8 : (b.strRepr == "y") = false := beq_eq_false_iff_ne.2 hby
  have f9 : (c.strRepr == "y") = false := beq_eq_false_iff_ne.2 hcy
  have f10 : (("x" : String) == "y") = false := by decide
  have hdraw : Pipeline.draw ⟨[(n1, .single a), (n2, .single b)], n3, c⟩ =
      ⟨[.str "x", .str a.strRepr, .str b.strRepr, .str c.strRepr, .str "y"],
        insert (3, 4) (insert (2, 3) (insert (1, 2) (insert (0, 1)
          (∅ : Finset (Nat × Nat))))), true, none, none⟩ := by
    simp [Pipeline.draw, networkifyStep, Network.init, Network.append,
      Network.link, gIndexOf, gnodeBEq, List.findIdx_cons,
      f1, f2, f3, f4, f5, f6, f7, f8, f9, f10]
  refine ⟨by rw [hdraw],
    by
      rw [hdraw]
      show insert (3, 4) (insert (2, 3) (insert (1, 2) (insert (0, 1)
        (∅ : Finset (Nat × Nat))))) = {(0, 1), (1, 2), (2, 3), (3, 4)}
      decide,
    by rw [hdraw]; rfl,
    by
      rw [hdraw]
      show (insert (3, 4) (insert (2, 3) (insert (1, 2) (insert (0, 1)
        (∅ : Finset (Nat × Nat)))))).card = 4
      decide,
    by rw [hdraw]⟩

/-- A leaf stage carrying only a label, for the C9 witness. -/
def drawEst (rep : String) : Est ℕ ℕ ℕ ℕ where
  isTransformer := true
  isSupT := false
  supFlag := false
  isClassifier := false
  strRepr := rep
  st := 0
  transformOneF := fun _ x => x
  fitOneF := fun s _ _ _ => s
  predictOneF := fun _ _ => 0
  predictProbaOneF := fun _ _ => .dict []
  scoreOneF := fun _ _ => 0
  forecastF := none
  debugOneF := none
  transformManyF := fun _ X => X
  fitManyF := fun s _ _ _ => s

/-- Closed instance of C9 at three concrete leaf stages. -/
theorem draw_three_leaf_chain_witness :
    (Pipeline.draw ⟨[("s1", .single (drawEst "A")), ("s2", .single (drawEst "B"))],
        "s3", drawEst "C"⟩).nodes =
      [.str "x", .str "A", .str "B", .str "C", .str "y"] ∧
    (Pipeline.draw ⟨[("s1", .single (drawEst "A")), ("s2", .single (drawEst "B"))],
        "s3", drawEst "C"⟩).edges = {(0, 1), (1, 2), (2, 3), (3, 4)} ∧
    (Pipeline.draw ⟨[("s1", .single (drawEst "A")), ("s2", .single (drawEst "B"))],
        "s3", drawEst "C"⟩).nodes.length = 5 ∧
    (Pipeline.draw ⟨[("s1", .single (drawEst "A")), ("s2", .single (drawEst "B"))],
        "s3", drawEst "C"⟩).edges.card = 4 ∧
    (Pipeline.draw ⟨[("s1", .single (drawEst "A")), ("s2", .single (drawEst "B"))],
        "s3", drawEst "C"⟩).directed = true :=
  draw_three_leaf_chain (drawEst "A") (drawEst "B") (drawEst "C") "s1" "s2" "s3"
    (by decide) (by decide) (by decide) (by decide) (by decide) (by decide)
    (by decide) (by decide) (by decide)

end CremePipeline
